import Mathlib

/-!
Verification of the inofd tool (src/inofd/src/main.rs): a shallow embedding
of its data model and operations, followed by theorems about the spec's
claims.  Paths are modelled as natural numbers (opaque identifiers with a
total order, matching the deterministic sort on `PathBuf`); machine `u64`
values are modelled as `Nat` (no arithmetic in the program can overflow or
wrap: values are only compared for equality or order).
-/

/-- A path, modelled as an opaque identifier with a decidable linear order
(standing in for `PathBuf` and its lexicographic order). -/
abbrev FPath := Nat

/-- One fiemap extent as used by the program: `fe_physical`, `fe_length`
and the `fe_flags` bitmask (from the `fiemap` crate's `FiemapExtent`). -/
structure FiemapExtent where
  fe_physical : Nat
  fe_length : Nat
  fe_flags : Nat
deriving DecidableEq, Repr

/-- FIEMAP_EXTENT_FLAG_INLINE constant (main.rs line 117, value 0x4). -/
def FIEMAP_EXTENT_FLAG_INLINE : Nat := 4

/-- The slice of `std::fs::Metadata` the program reads: inode, device,
link count, size, and whether the entry is a directory. -/
structure Metadata where
  ino : Nat
  dev : Nat
  nlink : Nat
  len : Nat
  is_dir : Bool
deriving DecidableEq, Repr

/-- The `io::ErrorKind` values the program distinguishes: `NotFound`,
`PermissionDenied`, and everything else. -/
inductive ErrKind where
  | notFound
  | permissionDenied
  | otherKind
deriving DecidableEq, Repr

/-- An `io::Error`, reduced to the two observations the program makes of
it: its kind and its raw OS error number (when there is one). -/
structure IoError where
  kind : ErrKind
  raw : Option Nat
deriving DecidableEq, Repr

/-- An `io::Result`, with the error modelled by `IoError`. -/
inductive IoResult (α : Type) where
  | ok (val : α)
  | err (e : IoError)
deriving DecidableEq, Repr

/-- One entry yielded by the jwalk walker: its path and the result of
`entry.metadata()` (`none` when the metadata query failed). -/
structure WalkEntry where
  path : FPath
  metadata : Option Metadata
deriving DecidableEq, Repr

/-- Comparison of two extent lists, from `same_extents` (main.rs lines
136-140): `zip` + `all`, comparing `fe_physical` and `fe_length` of
corresponding extents.  Note that `zip` truncates to the shorter list; the
caller performs the length check separately. -/
def same_extents (extents1 extents2 : List FiemapExtent) : Bool :=
  (extents1.zip extents2).all fun pr =>
    pr.1.fe_physical == pr.2.fe_physical && pr.1.fe_length == pr.2.fe_length

/-- The complete extent comparison performed by the reflink stage on an
extracted candidate list (main.rs lines 201-211): the extent-count
quick-reject followed by `same_extents`. -/
def extent_comparison (extents target_extents : List FiemapExtent) : Bool :=
  extents.length == target_extents.length && same_extents extents target_extents

/-- Extraction of a file's extents, from `get_extents` (main.rs lines
122-133): the kernel fiemap query (modelled as an oracle `fiemap` from
paths to raw extent lists or I/O errors, covering both `File::open` and
the fiemap ioctl) followed by filtering out extents whose flags contain
`FIEMAP_EXTENT_FLAG_INLINE`. -/
def get_extents (fiemap : FPath → IoResult (List FiemapExtent)) (p : FPath) :
    IoResult (List FiemapExtent) :=
  match fiemap p with
  | .err e => .err e
  | .ok raw =>
      .ok (raw.filter fun e => e.fe_flags &&& FIEMAP_EXTENT_FLAG_INLINE == 0)

/-- The benign-error test of the reflink candidate error handler (main.rs
lines 215-216): `NotFound`, `PermissionDenied`, or raw OS error 6 (ENXIO),
95 (EOPNOTSUPP) or 25 (ENOTTY). -/
def is_benign (e : IoError) : Bool :=
  e.kind == ErrKind.notFound || e.kind == ErrKind.permissionDenied ||
  e.raw == some 6 || e.raw == some 95 || e.raw == some 25

/-- The per-entry body of `find_reflinked_files_by_extents`'s `filter_map`
(main.rs lines 176-224).  Input `none` models a walker entry that arrived
as `Err` (logged and skipped).  The result is the retained path (if any)
paired with whether a diagnostic was printed for this entry. -/
def process_candidate (fiemap : FPath → IoResult (List FiemapExtent))
    (target_extents : List FiemapExtent) (target_inode target_size : Nat)
    (oe : Option WalkEntry) : Option FPath × Bool :=
  match oe with
  | none => (none, true)
  | some entry =>
    match entry.metadata with
    | none => (none, false)
    | some m =>
      if m.is_dir || m.ino == target_inode || m.len != target_size then
        (none, false)
      else
        match get_extents fiemap entry.path with
        | .ok extents =>
            if extents.length != target_extents.length then (none, false)
            else if same_extents extents target_extents then (some entry.path, false)
            else (none, false)
        | .err e => (none, !is_benign e)

/-- The reflink search over the walker's output (main.rs lines 143-228):
filter-map each entry through `process_candidate` and collect into a
uniqueness-enforcing set (the `HashSet`, modelled as a deduplicated list).
The device pruning lives in the walker (`process_read_dir`), modelled
separately; the Rust function always returns `Ok`, so the model is total. -/
def find_reflinked_files_by_extents
    (fiemap : FPath → IoResult (List FiemapExtent))
    (entries : List (Option WalkEntry)) (target_extents : List FiemapExtent)
    (target_inode target_size : Nat) : List FPath :=
  (entries.filterMap fun oe =>
    (process_candidate fiemap target_extents target_inode target_size oe).1).dedup

/-- The per-entry body of `find_hard_links`'s `filter_map` (main.rs lines
87-110): drop walker errors and metadata errors, keep non-directories whose
inode and device both equal the target's. -/
def hard_link_filter (target_inode target_dev : Nat) (oe : Option WalkEntry) :
    Option FPath :=
  match oe with
  | none => none
  | some entry =>
    match entry.metadata with
    | none => none
    | some m =>
      if !m.is_dir && m.ino == target_inode && m.dev == target_dev then
        some entry.path
      else none

/-- The hardlink search over the walker's output (main.rs lines 62-114):
filter-map into a `HashSet`, modelled as a deduplicated list.  The Rust
function always returns `Ok`, so the model is total. -/
def find_hard_links (entries : List (Option WalkEntry))
    (target_inode target_dev : Nat) : List FPath :=
  (entries.filterMap (hard_link_filter target_inode target_dev)).dedup

/-- The per-directory retain predicate installed by `process_read_dir`
(main.rs lines 69-82 and 159-172): keep a child only when its metadata is
readable and its device id equals the target's.  Entries that arrived as
`Err`, or whose metadata query failed, are dropped. -/
def retain_same_dev (target_dev : Nat) (entry : WalkEntry) : Bool :=
  match entry.metadata with
  | some m => m.dev == target_dev
  | none => false

/-- A directory tree: each node is the walker's view of one filesystem
entry together with the entries reachable beneath it. -/
inductive FsTree where
  | mk (entry : WalkEntry) (children : List FsTree)

/-- Modelled from the spec: the generic parallel tree iterator (the
external jwalk collaborator, not part of this repository's sources) yields
the entries reachable from the roots, applying the per-directory filter
callback (`retain_same_dev`, which is this repository's code) to every
directory's children before descending, so that any entry whose device id
differs from the scope's device is excluded before being descended into.
Output order is irrelevant to every property proved here (the walk is
concurrent and unordered). -/
def walk_forest (target_dev : Nat) : List FsTree → List WalkEntry
  | [] => []
  | (FsTree.mk entry children) :: rest =>
      (if retain_same_dev target_dev entry then
        entry :: walk_forest target_dev children
      else []) ++ walk_forest target_dev rest

/-- The device-bounded walk from a single root. -/
def bounded_walk (target_dev : Nat) (root : FsTree) : List WalkEntry :=
  walk_forest target_dev [root]

/-- The classification tag printed for each reported path (main.rs lines
350-369): `HARDLINK`, `REFLINK`, `?`, or the "[vanished]" line printed
when the fresh metadata query fails. -/
inductive Status where
  | hardlink
  | reflink
  | unknown
  | vanished
deriving DecidableEq, Repr

/-- Classification of one reported path (main.rs lines 351-367): re-query
the path's metadata (the `stat` oracle models `link.metadata()`); on
failure report it as vanished; otherwise tag `HARDLINK` when the fresh
inode equals the target's, else `REFLINK` when the reflink search was
enabled, else `?`. -/
def classify (stat : FPath → IoResult Metadata) (target_inode : Nat)
    (perform_reflink_search : Bool) (p : FPath) : Status :=
  match stat p with
  | .err _ => .vanished
  | .ok m =>
      if m.ino == target_inode then .hardlink
      else if perform_reflink_search then .reflink
      else .unknown

/-- The command-line arguments the core consumes (main.rs lines 22-40). -/
structure ArgsM where
  target : FPath
  search_path : FPath
  disable_reflink : Bool
  force_hardlink : Bool
  skip_hidden : Bool

/-- The filesystem environment of one run, as oracles: the target's
metadata query, the btrfs test (`is_on_btrfs`, .ok of whether the
filesystem magic equals `BTRFS_SUPER_MAGIC`), the fiemap oracle, the two
walker passes' outputs (already device-pruned by the walker, `none` for
entries that arrived as `Err`), and the fresh per-path metadata query used
at reporting time. -/
structure Env where
  target_meta : IoResult Metadata
  statfs_btrfs : IoResult Bool
  fiemap : FPath → IoResult (List FiemapExtent)
  walk1 : List (Option WalkEntry)
  walk2 : List (Option WalkEntry)
  stat : FPath → IoResult Metadata

/-- The hardlink stage of `main` (main.rs lines 266-283): run
`find_hard_links` when `nlink > 1` or forced, then remove the target's own
path from the resulting set; otherwise the stage is skipped and yields
nothing. -/
def hardlink_stage (args : ArgsM) (env : Env) (tm : Metadata) : List FPath :=
  if 1 < tm.nlink ∨ args.force_hardlink = true then
    (find_hard_links env.walk1 tm.ino tm.dev).erase args.target
  else []

/-- Everything `main` reports for one successful run. -/
structure Report where
  target_ino : Nat
  target_dev : Nat
  target_size : Nat
  perform_reflink : Bool
  reflink_ran : Bool
  reflink_skipped_inline : Bool
  target_extents : List FiemapExtent
  hard : List FPath
  refl : List FPath
  total : List FPath
  records : List (FPath × Status)
deriving DecidableEq, Repr

/-- Assembly of the final report (main.rs lines 238, 276, 312, 327-370):
`total_results` is the `HashSet` union of the two stages' outputs
(modelled as a deduplicated list), and the detailed listing sorts the
paths and classifies each one with a fresh metadata query. -/
def mk_report (args : ArgsM) (env : Env) (tm : Metadata)
    (prs ran skipped : Bool) (refl : List FPath)
    (tx : List FiemapExtent) : Report :=
  let hard := hardlink_stage args env tm
  let total := (hard ++ refl).dedup
  { target_ino := tm.ino
    target_dev := tm.dev
    target_size := tm.len
    perform_reflink := prs
    reflink_ran := ran
    reflink_skipped_inline := skipped
    target_extents := tx
    hard := hard
    refl := refl
    total := total
    records := (total.insertionSort (· ≤ ·)).map fun p =>
      (p, classify env.stat tm.ino prs p) }

/-- The control flow of `main` (main.rs lines 233-376).  Fatal paths
(`return Err`): the target metadata query (lines 241-247), the filesystem
type query (lines 250-256), and — when the reflink search is to run — the
target's own extent extraction (lines 293-299).  `find_hard_links` and
`find_reflinked_files_by_extents` always return `Ok` in the source, so the
`?` at line 272 and the `Err` arm at lines 314-317 never fire and the
stages are modelled as total.  The reflink search proper runs only when
the target is on btrfs, the `-r` flag is absent, and the inline-data test
(`target_extents.is_empty() && target_size > 0`, line 302) fails. -/
def main_model (args : ArgsM) (env : Env) : IoResult Report :=
  match env.target_meta with
  | .err e => .err e
  | .ok tm =>
    match env.statfs_btrfs with
    | .err e => .err e
    | .ok is_btrfs =>
      let prs := is_btrfs && !args.disable_reflink
      if prs then
        match get_extents env.fiemap args.target with
        | .err e => .err e
        | .ok tx =>
          if tx.isEmpty ∧ 0 < tm.len then
            .ok (mk_report args env tm prs false true [] tx)
          else
            .ok (mk_report args env tm prs true false
              (find_reflinked_files_by_extents env.fiemap env.walk2 tx
                tm.ino tm.len) tx)
      else .ok (mk_report args env tm prs false false [] [])

/-- Projection of a run outcome to its report, when it succeeded. -/
def resultReport : IoResult Report → Option Report
  | .ok r => some r
  | .err _ => none

/-- Projection of a run outcome to its error, when it failed. -/
def resultError : IoResult Report → Option IoError
  | .ok _ => none
  | .err e => some e

/-- A walker entry is consistent with the reporting-time `stat` oracle
when the metadata the walker saw is what `stat` still answers for that
path (the static-filesystem assumption: nothing changed between the walk
and the report). -/
def entry_consistent (stat : FPath → IoResult Metadata) :
    Option WalkEntry → Bool
  | some entry =>
      match entry.metadata with
      | some m => decide (stat entry.path = .ok m)
      | none => true
  | none => true

/-- A whole environment is static when both walker passes are consistent
with the reporting-time metadata oracle. -/
def consistent (env : Env) : Bool :=
  env.walk1.all (entry_consistent env.stat) &&
  env.walk2.all (entry_consistent env.stat)

/-! ### Basic lemmas about the extent comparison -/

/-- The physical content of an extent: the pair of fields the comparison
reads, with the flags forgotten. -/
def extent_key (x : FiemapExtent) : Nat × Nat := (x.fe_physical, x.fe_length)

theorem same_extents_nil_left (t : List FiemapExtent) :
    same_extents [] t = true := rfl

theorem same_extents_nil_right (e : List FiemapExtent) :
    same_extents e [] = true := by
  cases e <;> rfl

theorem same_extents_cons (x y : FiemapExtent) (e t : List FiemapExtent) :
    same_extents (x :: e) (y :: t) =
      ((x.fe_physical == y.fe_physical && x.fe_length == y.fe_length) &&
        same_extents e t) := rfl

theorem same_extents_eq_true_iff (e t : List FiemapExtent) :
    same_extents e t = true ↔
      ∀ i (h1 : i < e.length) (h2 : i < t.length),
        (e.get ⟨i, h1⟩).fe_physical = (t.get ⟨i, h2⟩).fe_physical ∧
        (e.get ⟨i, h1⟩).fe_length = (t.get ⟨i, h2⟩).fe_length := by
  induction e generalizing t with
  | nil =>
    simp only [same_extents_nil_left, List.length_nil, true_iff]
    intro i h1
    exact absurd h1 (Nat.not_lt_zero i)
  | cons x e ih =>
    cases t with
    | nil =>
      simp only [same_extents_nil_right, List.length_nil, true_iff]
      intro i _ h2
      exact absurd h2 (Nat.not_lt_zero i)
    | cons y t =>
      rw [same_extents_cons, Bool.and_eq_true, Bool.and_eq_true]
      constructor
      · rintro ⟨⟨hp, hl⟩, hrest⟩ i h1 h2
        cases i with
        | zero =>
          refine ⟨?_, ?_⟩
          · simpa using hp
          · simpa using hl
        | succ n =>
          exact (ih t).mp hrest n (Nat.lt_of_succ_lt_succ h1)
            (Nat.lt_of_succ_lt_succ h2)
      · intro h
        have h0 := h 0 (Nat.succ_pos _) (Nat.succ_pos _)
        refine ⟨⟨?_, ?_⟩, ?_⟩
        · simpa using h0.1
        · simpa using h0.2
        · exact (ih t).mpr fun n h1 h2 =>
            h (n + 1) (Nat.succ_lt_succ h1) (Nat.succ_lt_succ h2)

theorem same_extents_key_congr (e t e' t' : List FiemapExtent)
    (he : e.map extent_key = e'.map extent_key)
    (ht : t.map extent_key = t'.map extent_key) :
    same_extents e t = same_extents e' t' := by
  induction e generalizing e' t t' with
  | nil =>
    have : e' = [] := by
      cases e' with
      | nil => rfl
      | cons a l => simp at he
    subst this
    rw [same_extents_nil_left, same_extents_nil_left]
  | cons x e ih =>
    cases e' with
    | nil => simp at he
    | cons x' e'2 =>
      simp only [List.map_cons, List.cons.injEq] at he
      cases t with
      | nil =>
        have : t' = [] := by
          cases t' with
          | nil => rfl
          | cons b l => simp at ht
        subst this
        rw [same_extents_nil_right, same_extents_nil_right]
      | cons y t2 =>
        cases t' with
        | nil => simp at ht
        | cons y' t'2 =>
          simp only [List.map_cons, List.cons.injEq] at ht
          rw [same_extents_cons, same_extents_cons]
          have hx : x.fe_physical = x'.fe_physical ∧ x.fe_length = x'.fe_length := by
            have := he.1
            simp only [extent_key, Prod.mk.injEq] at this
            exact this
          have hy : y.fe_physical = y'.fe_physical ∧ y.fe_length = y'.fe_length := by
            have := ht.1
            simp only [extent_key, Prod.mk.injEq] at this
            exact this
          rw [hx.1, hx.2, hy.1, hy.2, ih t2 e'2 t'2 he.2 ht.2]

/-- Inversion for the reflink candidate body: it yields a path exactly for
a walker entry that passed the pre-filter, whose extent extraction
succeeded, and whose extents pass the complete comparison. -/
theorem process_candidate_keep_iff
    (fiemap : FPath → IoResult (List FiemapExtent)) (T : List FiemapExtent)
    (ti tsz : Nat) (oe : Option WalkEntry) (p : FPath) :
    (process_candidate fiemap T ti tsz oe).1 = some p ↔
      ∃ entry m xs, oe = some entry ∧ entry.path = p ∧
        entry.metadata = some m ∧ m.is_dir = false ∧ m.ino ≠ ti ∧
        m.len = tsz ∧ get_extents fiemap entry.path = .ok xs ∧
        extent_comparison xs T = true := by
  cases oe with
  | none => simp [process_candidate]
  | some entry =>
    cases hm : entry.metadata with
    | none => simp [process_candidate, hm]
    | some m =>
      cases hg : get_extents fiemap entry.path with
      | err e =>
        simp only [process_candidate, hm, hg, Option.some.injEq]
        constructor
        · intro h
          split at h <;> simp_all
        · rintro ⟨entry', m', xs, he, _, _, _, _, _, hok, _⟩
          cases he
          rw [hg] at hok
          cases hok
      | ok xs =>
        simp only [process_candidate, hm, hg, Option.some.injEq]
        by_cases hd : m.is_dir <;> by_cases hi : m.ino = ti <;>
          by_cases hl : m.len = tsz <;>
          by_cases hlen : xs.length = T.length <;>
          by_cases hse : same_extents xs T = true <;>
          simp_all [extent_comparison]

/-! ### C1 -/

/-- C1: the extent comparison performed by the reflink stage declares two
sequences fully shared only if they have equal length and every
corresponding pair of extents (index-by-index, in order) has equal
physical offset and equal length; the comparison never consults extent
flags (its verdict is invariant under arbitrary changes to the flags of
either sequence); and every path the reflink candidate body keeps passed
exactly this comparison against the target sequence. -/
theorem c1_extent_comparison_spec :
    (∀ e t : List FiemapExtent,
       extent_comparison e t = true ↔
         (e.length = t.length ∧
          ∀ i (h1 : i < e.length) (h2 : i < t.length),
            (e.get ⟨i, h1⟩).fe_physical = (t.get ⟨i, h2⟩).fe_physical ∧
            (e.get ⟨i, h1⟩).fe_length = (t.get ⟨i, h2⟩).fe_length)) ∧
    (∀ e t e' t' : List FiemapExtent,
       e.map extent_key = e'.map extent_key →
       t.map extent_key = t'.map extent_key →
       extent_comparison e t = extent_comparison e' t') ∧
    (∀ fiemap T ti tsz oe p,
       (process_candidate fiemap T ti tsz oe).1 = some p →
       ∃ entry xs, oe = some entry ∧ entry.path = p ∧
         get_extents fiemap entry.path = .ok xs ∧
         extent_comparison xs T = true) := by
  refine ⟨?_, ?_, ?_⟩
  · intro e t
    rw [extent_comparison, Bool.and_eq_true, Nat.beq_eq_true_eq,
      same_extents_eq_true_iff]
  · intro e t e' t' he ht
    rw [extent_comparison, extent_comparison,
      same_extents_key_congr e t e' t' he ht]
    have hle : e.length = e'.length := by
      have := congrArg List.length he
      simpa using this
    have hlt : t.length = t'.length := by
      have := congrArg List.length ht
      simpa using this
    rw [hle, hlt]
  · intro fiemap T ti tsz oe p h
    rcases (process_candidate_keep_iff fiemap T ti tsz oe p).mp h with
      ⟨entry, m, xs, h1, h2, _, _, _, _, h7, h8⟩
    exact ⟨entry, xs, h1, h2, h7, h8⟩

/-- Concrete instantiation of `c1_extent_comparison_spec`. -/
theorem c1_extent_comparison_spec_witness :
    (extent_comparison [⟨100, 10, 0⟩] [⟨100, 10, 4⟩] =
      extent_comparison [⟨100, 10, 7⟩] [⟨100, 10, 0⟩]) ∧
    ([(⟨100, 10, 0⟩ : FiemapExtent)].length =
      [(⟨100, 10, 4⟩ : FiemapExtent)].length) :=
  ⟨c1_extent_comparison_spec.2.1 _ _ _ _ rfl rfl,
   ((c1_extent_comparison_spec.1 _ _).mp (by decide)).1⟩

/-! ### C2 -/

/-- Inversion for the hardlink candidate body. -/
theorem hard_link_filter_eq_some_iff (ti td : Nat) (oe : Option WalkEntry)
    (p : FPath) :
    hard_link_filter ti td oe = some p ↔
      ∃ entry m, oe = some entry ∧ entry.path = p ∧
        entry.metadata = some m ∧ m.is_dir = false ∧ m.ino = ti ∧
        m.dev = td := by
  cases oe with
  | none => simp [hard_link_filter]
  | some entry =>
    cases hm : entry.metadata with
    | none => simp [hard_link_filter, hm]
    | some m =>
      simp only [hard_link_filter, hm]
      by_cases hd : m.is_dir <;> by_cases hi : m.ino = ti <;>
        by_cases hv : m.dev = td <;> simp_all

/-- C2: after the removal of the target's own path (done by `main`), a
path is retained by the hardlink matcher exactly when some walker entry
carries it with readable metadata that is not a directory, whose device
equals the target's device and whose inode equals the target's inode, and
the path is not the target path; and the returned collection has no
duplicate paths. -/
theorem c2_hardlink_matcher_spec :
    ∀ (entries : List (Option WalkEntry)) (ti td : Nat) (tp p : FPath),
      (p ∈ (find_hard_links entries ti td).erase tp ↔
        (p ≠ tp ∧ ∃ entry m, some entry ∈ entries ∧ entry.path = p ∧
          entry.metadata = some m ∧ m.is_dir = false ∧ m.dev = td ∧
          m.ino = ti)) ∧
      ((find_hard_links entries ti td).erase tp).Nodup := by
  intro entries ti td tp p
  have hnd : (find_hard_links entries ti td).Nodup :=
    List.nodup_dedup _
  refine ⟨?_, hnd.erase tp⟩
  rw [hnd.mem_erase_iff, find_hard_links, List.mem_dedup,
    List.mem_filterMap]
  constructor
  · rintro ⟨hne, oe, hoe, hf⟩
    rcases (hard_link_filter_eq_some_iff ti td oe p).mp hf with
      ⟨entry, m, rfl, h2, h3, h4, h5, h6⟩
    exact ⟨hne, entry, m, hoe, h2, h3, h4, h6, h5⟩
  · rintro ⟨hne, entry, m, hoe, h2, h3, h4, h5, h6⟩
    exact ⟨hne, some entry,
      hoe, (hard_link_filter_eq_some_iff ti td (some entry) p).mpr
        ⟨entry, m, rfl, h2, h3, h4, h6, h5⟩⟩

/-- Concrete instantiation of `c2_hardlink_matcher_spec`. -/
theorem c2_hardlink_matcher_spec_witness :
    (5 : FPath) ∈
      (find_hard_links [some ⟨5, some ⟨7, 3, 2, 0, false⟩⟩] 7 3).erase 4 ∧
    ((find_hard_links [some ⟨5, some ⟨7, 3, 2, 0, false⟩⟩] 7 3).erase 4).Nodup := by
  have h := c2_hardlink_matcher_spec
    [some ⟨5, some ⟨7, 3, 2, 0, false⟩⟩] 7 3 4 5
  refine ⟨h.1.mpr ⟨by decide, ⟨5, some ⟨7, 3, 2, 0, false⟩⟩,
    ⟨7, 3, 2, 0, false⟩, by simp, rfl, rfl, rfl, rfl, rfl⟩, h.2⟩

/-! ### C3 -/

theorem retain_same_dev_eq_true_iff (td : Nat) (entry : WalkEntry) :
    retain_same_dev td entry = true ↔
      ∃ m, entry.metadata = some m ∧ m.dev = td := by
  cases hm : entry.metadata with
  | none => simp [retain_same_dev, hm]
  | some m => simp [retain_same_dev, hm]

/-- Every entry the device-bounded walk yields has readable metadata whose
device id is the scope's device: entries failing the per-directory filter
are dropped, together with everything beneath them. -/
theorem walk_forest_dev (td : Nat) :
    ∀ (cs : List FsTree) (e : WalkEntry), e ∈ walk_forest td cs →
      ∃ m, e.metadata = some m ∧ m.dev = td
  | [], e, he => by simp [walk_forest] at he
  | (FsTree.mk ent children) :: rest, e, he => by
      rw [walk_forest] at he
      rcases List.mem_append.mp he with h1 | h2
      · by_cases hr : retain_same_dev td ent = true
        · rw [if_pos hr] at h1
          rcases List.mem_cons.mp h1 with rfl | h1
          · exact (retain_same_dev_eq_true_iff td e).mp hr
          · exact walk_forest_dev td children e h1
        · rw [if_neg hr] at h1
          exact absurd h1 (List.not_mem_nil e)
      · exact walk_forest_dev td rest e h2

/-- C3: every entry yielded by the device-bounded traversal has the
target's device id (entries with a different device are dropped by the
per-directory filter before descent, so nothing beneath them is yielded
either), and consequently every path in the hardlink or reflink match set
computed from the walk belongs to a walked entry whose device equals the
target's — regardless of inode coincidences. -/
theorem c3_device_pruning :
    ∀ (td : Nat) (root : FsTree),
      (∀ e ∈ bounded_walk td root, ∃ m, e.metadata = some m ∧ m.dev = td) ∧
      (∀ (ti : Nat) (tp p : FPath),
        p ∈ (find_hard_links ((bounded_walk td root).map some) ti td).erase tp →
        ∃ e m, e ∈ bounded_walk td root ∧ e.path = p ∧
          e.metadata = some m ∧ m.dev = td) ∧
      (∀ (fiemap : FPath → IoResult (List FiemapExtent))
         (T : List FiemapExtent) (ti tsz : Nat) (p : FPath),
        p ∈ find_reflinked_files_by_extents fiemap
              ((bounded_walk td root).map some) T ti tsz →
        ∃ e m, e ∈ bounded_walk td root ∧ e.path = p ∧
          e.metadata = some m ∧ m.dev = td) := by
  intro td root
  refine ⟨fun e he => walk_forest_dev td [root] e he, ?_, ?_⟩
  · intro ti tp p hp
    have hp2 := List.mem_of_mem_erase hp
    rw [find_hard_links, List.mem_dedup, List.mem_filterMap] at hp2
    rcases hp2 with ⟨oe, hoe, hf⟩
    rcases (hard_link_filter_eq_some_iff ti td oe p).mp hf with
      ⟨entry, m, rfl, h2, h3, _, _, _⟩
    have he : entry ∈ bounded_walk td root := by simpa using hoe
    rcases walk_forest_dev td [root] entry he with ⟨m', hm', hd'⟩
    exact ⟨entry, m', he, h2, hm', hd'⟩
  · intro fiemap T ti tsz p hp
    rw [find_reflinked_files_by_extents, List.mem_dedup,
      List.mem_filterMap] at hp
    rcases hp with ⟨oe, hoe, hf⟩
    rcases (process_candidate_keep_iff fiemap T ti tsz oe p).mp hf with
      ⟨entry, m, xs, rfl, h2, _, _, _, _, _, _⟩
    have he : entry ∈ bounded_walk td root := by simpa using hoe
    rcases walk_forest_dev td [root] entry he with ⟨m', hm', hd'⟩
    exact ⟨entry, m', he, h2, hm', hd'⟩

/-- Concrete instantiation of `c3_device_pruning`: the lone retained child
of a small two-entry tree is on the target device. -/
theorem c3_device_pruning_witness :
    ∃ m, (⟨1, some ⟨3, 1, 1, 0, false⟩⟩ : WalkEntry).metadata = some m ∧
      m.dev = 1 :=
  (c3_device_pruning 1 (FsTree.mk ⟨0, some ⟨2, 1, 1, 0, true⟩⟩
      [FsTree.mk ⟨1, some ⟨3, 1, 1, 0, false⟩⟩ [],
       FsTree.mk ⟨9, some ⟨3, 5, 1, 0, false⟩⟩ []])).1
    ⟨1, some ⟨3, 1, 1, 0, false⟩⟩
    (by simp [bounded_walk, walk_forest, retain_same_dev])

/-! ### C4 -/

/-- C4: a candidate that is a directory, or shares the target's inode, or
differs in size from the target, is rejected by the reflink matcher with
no diagnostic, for every possible extent-extraction oracle — the rejection
precedes extraction — and its presence in the walker stream leaves the
reflink match set unchanged. -/
theorem c4_size_prefilter :
    ∀ (fiemap : FPath → IoResult (List FiemapExtent))
      (T : List FiemapExtent) (ti tsz : Nat) (entry : WalkEntry)
      (m : Metadata),
      entry.metadata = some m →
      (m.is_dir = true ∨ m.ino = ti ∨ m.len ≠ tsz) →
      process_candidate fiemap T ti tsz (some entry) = (none, false) ∧
      ∀ entries,
        find_reflinked_files_by_extents fiemap (some entry :: entries) T ti tsz =
        find_reflinked_files_by_extents fiemap entries T ti tsz := by
  intro fiemap T ti tsz entry m hm hrej
  have hc : (m.is_dir || m.ino == ti || m.len != tsz) = true := by
    rcases hrej with h | h | h <;> simp [h]
  have hpc : process_candidate fiemap T ti tsz (some entry) = (none, false) := by
    simp [process_candidate, hm, hc]
  refine ⟨hpc, fun entries => ?_⟩
  simp [find_reflinked_files_by_extents, List.filterMap_cons, hpc]

/-- Concrete instantiation of `c4_size_prefilter`: a size-99 candidate is
dropped when the target size is 7, although its extents would match. -/
theorem c4_size_prefilter_witness :
    process_candidate (fun _ => .ok [⟨0, 7, 0⟩]) [⟨0, 7, 0⟩] 3 7
        (some ⟨1, some ⟨5, 1, 1, 99, false⟩⟩) = (none, false) ∧
    find_reflinked_files_by_extents (fun _ => .ok [⟨0, 7, 0⟩])
        [some ⟨1, some ⟨5, 1, 1, 99, false⟩⟩] [⟨0, 7, 0⟩] 3 7 =
      find_reflinked_files_by_extents (fun _ => .ok [⟨0, 7, 0⟩]) []
        [⟨0, 7, 0⟩] 3 7 := by
  have h := c4_size_prefilter (fun _ => .ok [⟨0, 7, 0⟩]) [⟨0, 7, 0⟩] 3 7
    ⟨1, some ⟨5, 1, 1, 99, false⟩⟩ ⟨5, 1, 1, 99, false⟩ rfl
    (Or.inr (Or.inr (by decide)))
  exact ⟨h.1, h.2 []⟩

/-! ### C7 -/

/-- C7: the recognized benign extent-extraction failures are exactly
NotFound, PermissionDenied, ENXIO (6), EOPNOTSUPP (95) and ENOTTY (25); a
candidate whose extraction fails benignly is dropped with no diagnostic, a
candidate whose extraction fails otherwise is dropped with a diagnostic,
and in either case the failure only drops that one candidate — the search
over the remaining entries is unchanged. -/
theorem c7_benign_drop :
    (∀ er : IoError, is_benign er = true ↔
       (er.kind = ErrKind.notFound ∨ er.kind = ErrKind.permissionDenied ∨
        er.raw = some 6 ∨ er.raw = some 95 ∨ er.raw = some 25)) ∧
    (∀ (fiemap : FPath → IoResult (List FiemapExtent))
       (T : List FiemapExtent) (ti tsz : Nat) (entry : WalkEntry)
       (m : Metadata) (er : IoError),
       entry.metadata = some m → m.is_dir = false → m.ino ≠ ti →
       m.len = tsz → fiemap entry.path = .err er →
       process_candidate fiemap T ti tsz (some entry) =
         (none, !is_benign er) ∧
       ∀ entries,
         find_reflinked_files_by_extents fiemap (some entry :: entries) T ti tsz =
         find_reflinked_files_by_extents fiemap entries T ti tsz) := by
  constructor
  · intro er
    simp only [is_benign, Bool.or_eq_true, beq_iff_eq]
    tauto
  · intro fiemap T ti tsz entry m er hm hd hi hl hf
    have hc : (m.is_dir || m.ino == ti || m.len != tsz) = false := by
      simp [hd, hi, hl]
    have hg : get_extents fiemap entry.path = .err er := by
      simp [get_extents, hf]
    have hpc : process_candidate fiemap T ti tsz (some entry) =
        (none, !is_benign er) := by
      simp [process_candidate, hm, hc, hg]
    refine ⟨hpc, fun entries => ?_⟩
    simp [find_reflinked_files_by_extents, List.filterMap_cons, hpc]

/-- Concrete instantiation of `c7_benign_drop`: an EOPNOTSUPP failure is
benign and the candidate is dropped silently without disturbing the
search. -/
theorem c7_benign_drop_witness :
    is_benign ⟨ErrKind.otherKind, some 95⟩ = true ∧
    process_candidate (fun _ => .err ⟨ErrKind.otherKind, some 95⟩) [] 3 7
        (some ⟨1, some ⟨5, 1, 1, 7, false⟩⟩) =
      (none, !is_benign ⟨ErrKind.otherKind, some 95⟩) ∧
    find_reflinked_files_by_extents
        (fun _ => .err ⟨ErrKind.otherKind, some 95⟩)
        [some ⟨1, some ⟨5, 1, 1, 7, false⟩⟩] [] 3 7 =
      find_reflinked_files_by_extents
        (fun _ => .err ⟨ErrKind.otherKind, some 95⟩) [] [] 3 7 := by
  have h1 := c7_benign_drop.1 ⟨ErrKind.otherKind, some 95⟩
  have h2 := c7_benign_drop.2 (fun _ => .err ⟨ErrKind.otherKind, some 95⟩)
    [] 3 7 ⟨1, some ⟨5, 1, 1, 7, false⟩⟩ ⟨5, 1, 1, 7, false⟩
    ⟨ErrKind.otherKind, some 95⟩ rfl rfl (by decide) rfl rfl
  exact ⟨h1.mpr (by decide), h2.1, h2.2 []⟩

/-! ### Inversion lemmas for the run model -/

/-- Membership in the reflink search output. -/
theorem mem_find_reflinked
    (fiemap : FPath → IoResult (List FiemapExtent))
    (entries : List (Option WalkEntry)) (T : List FiemapExtent)
    (ti tsz : Nat) (p : FPath) :
    p ∈ find_reflinked_files_by_extents fiemap entries T ti tsz ↔
      ∃ oe ∈ entries, (process_candidate fiemap T ti tsz oe).1 = some p := by
  rw [find_reflinked_files_by_extents, List.mem_dedup, List.mem_filterMap]

/-- Membership in the hardlink stage output of `main`. -/
theorem mem_hardlink_stage (args : ArgsM) (env : Env) (tm : Metadata)
    (p : FPath) :
    p ∈ hardlink_stage args env tm →
      p ≠ args.target ∧ ∃ entry m, some entry ∈ env.walk1 ∧
        entry.path = p ∧ entry.metadata = some m ∧ m.is_dir = false ∧
        m.ino = tm.ino ∧ m.dev = tm.dev := by
  unfold hardlink_stage
  split
  · intro hp
    have hnd : (find_hard_links env.walk1 tm.ino tm.dev).Nodup :=
      List.nodup_dedup _
    rw [hnd.mem_erase_iff] at hp
    obtain ⟨hne, hp⟩ := hp
    rw [find_hard_links, List.mem_dedup, List.mem_filterMap] at hp
    obtain ⟨oe, hoe, hf⟩ := hp
    obtain ⟨entry, m, rfl, h2, h3, h4, h5, h6⟩ :=
      (hard_link_filter_eq_some_iff _ _ _ _).mp hf
    exact ⟨hne, entry, m, hoe, h2, h3, h4, h5, h6⟩
  · intro hp
    cases hp

/-- A successful run is one of the three non-fatal branches of `main`. -/
theorem main_model_ok_inv (args : ArgsM) (env : Env) (r : Report)
    (h : main_model args env = .ok r) :
    ∃ tm b ran skipped refl tx,
      env.target_meta = .ok tm ∧ env.statfs_btrfs = .ok b ∧
      r = mk_report args env tm (b && !args.disable_reflink) ran skipped
            refl tx ∧
      (refl = [] ∨
        ((b && !args.disable_reflink) = true ∧
         refl = find_reflinked_files_by_extents env.fiemap env.walk2 tx
                  tm.ino tm.len)) := by
  cases ht : env.target_meta with
  | err e => simp [main_model, ht] at h
  | ok tm =>
    cases hb : env.statfs_btrfs with
    | err e => simp [main_model, ht, hb] at h
    | ok b =>
      by_cases hprs : (b && !args.disable_reflink) = true
      · cases hg : get_extents env.fiemap args.target with
        | err e0 =>
          simp only [main_model, ht, hb, hg] at h
          rw [if_pos hprs] at h
          cases h
        | ok tx =>
          by_cases hsk : tx.isEmpty ∧ 0 < tm.len
          · simp only [main_model, ht, hb, hg] at h
            rw [if_pos hprs, if_pos hsk] at h
            cases h
            exact ⟨tm, b, false, true, [], tx, rfl, rfl, rfl, Or.inl rfl⟩
          · simp only [main_model, ht, hb, hg] at h
            rw [if_pos hprs, if_neg hsk] at h
            cases h
            exact ⟨tm, b, true, false, _, tx, rfl, rfl, rfl,
              Or.inr ⟨hprs, rfl⟩⟩
      · simp only [main_model, ht, hb] at h
        rw [if_neg hprs] at h
        cases h
        exact ⟨tm, b, false, false, [], [], rfl, rfl, rfl, Or.inl rfl⟩

/-! ### C6 -/

/-- A run in which both queries the spec calls fatal succeed, but the
target's own extent extraction fails. -/
def env_c6 : Env :=
  { target_meta := .ok ⟨1, 1, 1, 4, false⟩
    statfs_btrfs := .ok true
    fiemap := fun _ => .err ⟨ErrKind.otherKind, none⟩
    walk1 := []
    walk2 := []
    stat := fun _ => .err ⟨ErrKind.otherKind, none⟩ }

/-- Arguments for the `env_c6` run: reflink search enabled. -/
def args_c6 : ArgsM := ⟨0, 9, false, false, false⟩

/-- C6 counterexample: the target metadata query and the filesystem-type
query both succeed, yet the run returns an error to the top level, because
the target's own extent extraction failed (main.rs lines 293-299) — a
third fatal category the claim does not admit. -/
theorem c6_counterexample :
    main_model args_c6 env_c6 = .err ⟨ErrKind.otherKind, none⟩ ∧
    env_c6.target_meta = .ok ⟨1, 1, 1, 4, false⟩ ∧
    env_c6.statfs_btrfs = .ok true := ⟨rfl, rfl, rfl⟩

/-- C6 amended: the run returns an error to the top level exactly when the
target metadata query fails, or the filesystem-type query fails, or — with
the reflink stage enabled — the target's own extent extraction fails;
every other error of the run is absorbed where it is detected. -/
theorem c6_fatal_errors_amended :
    ∀ (args : ArgsM) (env : Env) (e : IoError),
      main_model args env = .err e ↔
        (env.target_meta = .err e ∨
         (∃ tm, env.target_meta = .ok tm ∧ env.statfs_btrfs = .err e) ∨
         (∃ tm b, env.target_meta = .ok tm ∧ env.statfs_btrfs = .ok b ∧
           (b && !args.disable_reflink) = true ∧
           get_extents env.fiemap args.target = .err e)) := by
  intro args env e
  cases ht : env.target_meta with
  | err e0 => simp [main_model, ht]
  | ok tm =>
    cases hb : env.statfs_btrfs with
    | err e0 => simp [main_model, ht, hb]
    | ok b =>
      by_cases hprs : (b && !args.disable_reflink) = true
      · cases hg : get_extents env.fiemap args.target with
        | err e0 =>
          simp only [main_model, ht, hb, hg]
          rw [if_pos hprs]
          simp only [IoResult.err.injEq, ht, hb, hg, IoResult.ok.injEq]
          constructor
          · intro h
            refine Or.inr (Or.inr ⟨tm, b, rfl, rfl, hprs, by rw [h]⟩)
          · rintro (h | ⟨tm2, _, h⟩ | ⟨tm2, b2, _, hb2, _, hg2⟩)
            · cases h
            · cases h
            · cases hg2
              rfl
        | ok tx =>
          by_cases hsk : tx.isEmpty ∧ 0 < tm.len
          · simp only [main_model, ht, hb, hg]
            rw [if_pos hprs, if_pos hsk]
            simp
          · simp only [main_model, ht, hb, hg]
            rw [if_pos hprs, if_neg hsk]
            simp
      · simp only [main_model, ht, hb]
        rw [if_neg hprs]
        simp only [IoResult.ok.injEq, IoResult.err.injEq]
        constructor
        · intro h
          cases h
        · rintro (h | ⟨tm2, -, h2⟩ | ⟨tm2, b2, -, hb2, hp2, -⟩)
          · cases h
          · cases h2
          · cases hb2
            exact absurd hp2 hprs

/-- Concrete instantiation of `c6_fatal_errors_amended` at the `env_c6`
run. -/
theorem c6_fatal_errors_amended_witness :
    env_c6.target_meta = .err ⟨ErrKind.otherKind, none⟩ ∨
    (∃ tm, env_c6.target_meta = .ok tm ∧
      env_c6.statfs_btrfs = .err ⟨ErrKind.otherKind, none⟩) ∨
    (∃ tm b, env_c6.target_meta = .ok tm ∧ env_c6.statfs_btrfs = .ok b ∧
      (b && !args_c6.disable_reflink) = true ∧
      get_extents env_c6.fiemap args_c6.target =
        .err ⟨ErrKind.otherKind, none⟩) :=
  (c6_fatal_errors_amended args_c6 env_c6 ⟨ErrKind.otherKind, none⟩).mp rfl

/-! ### C5 -/

/-- A run whose target is an empty (size 0) file on btrfs with no extents
and reflink search enabled. -/
def env_c5 : Env :=
  { target_meta := .ok ⟨1, 1, 1, 0, false⟩
    statfs_btrfs := .ok true
    fiemap := fun _ => .ok []
    walk1 := []
    walk2 := []
    stat := fun _ => .err ⟨ErrKind.otherKind, none⟩ }

/-- Arguments for the `env_c5` run: reflink search enabled. -/
def args_c5 : ArgsM := ⟨0, 9, false, false, false⟩

/-- C5 counterexample: for a size-0 target with an empty extent sequence
the reflink search still runs (the skip test at main.rs:302 requires
`target_size > 0`), so the stage does not run "only after confirming the
target has a nonempty extent sequence". -/
theorem c5_counterexample :
    (resultReport (main_model args_c5 env_c5)).map
        (fun r => (r.reflink_ran, r.perform_reflink, r.target_extents)) =
      some (true, true, []) := rfl

/-- C5 amended: the reflink search runs exactly when the target is on the
copy-on-write filesystem, the disable flag is unset, the target's extent
extraction succeeds, and it is not the case that the extracted sequence is
empty while the target size is nonzero; the inline-data skip (reported) is
taken exactly when the extracted sequence is empty and the size is
nonzero. -/
theorem c5_reflink_gate_amended :
    ∀ (args : ArgsM) (env : Env) (r : Report),
      main_model args env = .ok r →
      (r.reflink_ran = true ↔
        (∃ tm b tx, env.target_meta = .ok tm ∧ env.statfs_btrfs = .ok b ∧
          (b && !args.disable_reflink) = true ∧
          get_extents env.fiemap args.target = .ok tx ∧
          ¬(tx.isEmpty = true ∧ 0 < tm.len))) ∧
      (r.reflink_skipped_inline = true ↔
        (∃ tm b tx, env.target_meta = .ok tm ∧ env.statfs_btrfs = .ok b ∧
          (b && !args.disable_reflink) = true ∧
          get_extents env.fiemap args.target = .ok tx ∧
          tx.isEmpty = true ∧ 0 < tm.len)) := by
  intro args env r h
  cases ht : env.target_meta with
  | err e =>
    simp only [main_model, ht] at h
    cases h
  | ok tm =>
    cases hb : env.statfs_btrfs with
    | err e =>
      simp only [main_model, ht, hb] at h
      cases h
    | ok b =>
      by_cases hprs : (b && !args.disable_reflink) = true
      · cases hg : get_extents env.fiemap args.target with
        | err e0 =>
          simp only [main_model, ht, hb, hg] at h
          rw [if_pos hprs] at h
          cases h
        | ok tx =>
          by_cases hsk : tx.isEmpty ∧ 0 < tm.len
          · simp only [main_model, ht, hb, hg] at h
            rw [if_pos hprs, if_pos hsk] at h
            cases h
            constructor
            · constructor
              · intro hx
                simp [mk_report] at hx
              · rintro ⟨tm2, b2, tx2, he1, he2, -, hg2, hnsk⟩
                cases he1
                cases he2
                cases hg2
                exact absurd hsk hnsk
            · constructor
              · intro _
                exact ⟨tm, b, tx, rfl, rfl, hprs, rfl, hsk⟩
              · intro _
                simp [mk_report]
          · simp only [main_model, ht, hb, hg] at h
            rw [if_pos hprs, if_neg hsk] at h
            cases h
            constructor
            · constructor
              · intro _
                exact ⟨tm, b, tx, rfl, rfl, hprs, rfl, hsk⟩
              · intro _
                simp [mk_report]
            · constructor
              · intro hx
                simp [mk_report] at hx
              · rintro ⟨tm2, b2, tx2, he1, he2, -, hg2, hsk2⟩
                cases he1
                cases he2
                cases hg2
                exact absurd hsk2 hsk
      · simp only [main_model, ht, hb] at h
        rw [if_neg hprs] at h
        cases h
        constructor
        · constructor
          · intro hx
            simp [mk_report] at hx
          · rintro ⟨tm2, b2, tx2, he1, he2, hp2, -, -⟩
            cases he1
            cases he2
            exact absurd hp2 hprs
        · constructor
          · intro hx
            simp [mk_report] at hx
          · rintro ⟨tm2, b2, tx2, he1, he2, hp2, -, -⟩
            cases he1
            cases he2
            exact absurd hp2 hprs

/-- The report of the `env_c5` run. -/
def rep5 : Report := mk_report args_c5 env_c5 ⟨1, 1, 1, 0, false⟩ true true
  false [] []

/-- Concrete instantiation of `c5_reflink_gate_amended` at the `env_c5`
run. -/
theorem c5_reflink_gate_amended_witness : rep5.reflink_ran = true := by
  have h := c5_reflink_gate_amended args_c5 env_c5 rep5 rfl
  exact h.1.mpr ⟨⟨1, 1, 1, 0, false⟩, true, [], rfl, rfl, rfl, rfl,
    by decide⟩

/-! ### C8 -/

/-- A run in which the filesystem changed between the walk and the report:
the fresh metadata for the matched path shows device 99, not the target's
device 1. -/
def env_c8 : Env :=
  { target_meta := .ok ⟨7, 1, 2, 5, false⟩
    statfs_btrfs := .ok false
    fiemap := fun _ => .ok []
    walk1 := [some ⟨3, some ⟨7, 1, 2, 5, false⟩⟩]
    walk2 := []
    stat := fun _ => .ok ⟨7, 99, 2, 5, false⟩ }

/-- Arguments for the `env_c8` run. -/
def args_c8 : ArgsM := ⟨0, 9, false, false, false⟩

/-- C8 counterexample: path 3 is reported and classified HARDLINK even
though its fresh identity at classification time has device 99 while the
target's device is 1 — the classification code (main.rs lines 350-369)
re-resolves the metadata but never re-verifies the device. -/
theorem c8_counterexample :
    (resultReport (main_model args_c8 env_c8)).map Report.records =
      some [(3, Status.hardlink)] ∧
    env_c8.stat 3 = .ok ⟨7, 99, 2, 5, false⟩ ∧
    (resultReport (main_model args_c8 env_c8)).map Report.target_dev =
      some 1 := ⟨rfl, rfl, rfl⟩

/-- C8 amended: at classification time each reported path is re-resolved
through the fresh metadata oracle and its status is computed from that
fresh identity's inode alone (HARDLINK when it equals the target's inode,
else REFLINK when the reflink search was enabled, else unknown; vanished
when the fresh query fails); the fresh device is not re-verified — any
oracle agreeing on the inode, whatever devices it reports, yields the same
status. -/
theorem c8_classification_amended :
    ∀ (args : ArgsM) (env : Env) (r : Report) (p : FPath) (s : Status),
      main_model args env = .ok r → (p, s) ∈ r.records →
      s = classify env.stat r.target_ino r.perform_reflink p ∧
      ∀ stat2 : FPath → IoResult Metadata,
        (match env.stat p, stat2 p with
         | .ok m1, .ok m2 => m1.ino = m2.ino
         | .err _, .err _ => True
         | _, _ => False) →
        classify stat2 r.target_ino r.perform_reflink p = s := by
  intro args env r p s h hmem
  obtain ⟨tm, b, ran, skipped, refl, tx, ht, hb, hr, -⟩ :=
    main_model_ok_inv args env r h
  subst hr
  simp only [mk_report] at hmem
  rw [List.mem_map] at hmem
  obtain ⟨q, hq, heq⟩ := hmem
  injection heq with h1 h2
  subst h1
  subst h2
  constructor
  · simp [mk_report]
  · intro stat2 hagree
    simp only [mk_report]
    cases hsp : env.stat q with
    | ok m1 =>
      cases hsp2 : stat2 q with
      | ok m2 =>
        rw [hsp, hsp2] at hagree
        have hag : m1.ino = m2.ino := hagree
        simp only [classify, hsp, hsp2]
        rw [hag]
      | err e2 =>
        rw [hsp, hsp2] at hagree
        exact hagree.elim
    | err e1 =>
      cases hsp2 : stat2 q with
      | ok m2 =>
        rw [hsp, hsp2] at hagree
        exact hagree.elim
      | err e2 =>
        simp only [classify, hsp, hsp2]

/-- The report of the `env_c8` run. -/
def rep8 : Report := mk_report args_c8 env_c8 ⟨7, 1, 2, 5, false⟩ false
  false false [] []

/-- Concrete instantiation of `c8_classification_amended` at the `env_c8`
run. -/
theorem c8_classification_amended_witness :
    Status.hardlink =
      classify env_c8.stat rep8.target_ino rep8.perform_reflink 3 :=
  (c8_classification_amended args_c8 env_c8 rep8 3 Status.hardlink rfl
    (by decide)).1

/-! ### C9 -/

/-- In a static run, the walker-time metadata of every walked entry is
what the reporting-time oracle still answers. -/
theorem consistent_stat (env : Env) (h : consistent env = true)
    (entry : WalkEntry) (m : Metadata)
    (hw : some entry ∈ env.walk1 ∨ some entry ∈ env.walk2)
    (hm : entry.metadata = some m) : env.stat entry.path = .ok m := by
  rw [consistent, Bool.and_eq_true, List.all_eq_true, List.all_eq_true] at h
  rcases hw with hw | hw
  · have h2 := h.1 _ hw
    simp only [entry_consistent, hm, decide_eq_true_eq] at h2
    exact h2
  · have h2 := h.2 _ hw
    simp only [entry_consistent, hm, decide_eq_true_eq] at h2
    exact h2

/-- Mapping a list to key-value pairs and back recovers the key list. -/
theorem map_fst_records (f : FPath → Status) (l : List FPath) :
    (l.map fun p => (p, f p)).map Prod.fst = l := by
  induction l with
  | nil => rfl
  | cons x l ih => simp [ih]

/-- C9: for a run over an unchanged filesystem, the final report lists
exactly the deduplicated union of the hardlink and reflink match sets, in
order sorted by path (the reported key sequence is a sorted permutation of
the union), and each path is tagged with the relation that produced it —
a path in the hardlink set is tagged HARDLINK (so a path found by both
stages is tagged HARDLINK), and a path only in the reflink set is tagged
REFLINK. -/
theorem c9_report_spec :
    ∀ (args : ArgsM) (env : Env) (r : Report),
      main_model args env = .ok r → consistent env = true →
      ((∀ p, p ∈ r.total ↔ (p ∈ r.hard ∨ p ∈ r.refl)) ∧ r.total.Nodup) ∧
      ((r.records.map Prod.fst).Sorted (· ≤ ·) ∧
        (r.records.map Prod.fst).Perm r.total) ∧
      (∀ p s, (p, s) ∈ r.records →
        (p ∈ r.hard → s = Status.hardlink) ∧
        (p ∉ r.hard → p ∈ r.refl → s = Status.reflink)) := by
  intro args env r h hcons
  obtain ⟨tm, b, ran, skipped, refl, tx, ht, hb, hr, hrefl⟩ :=
    main_model_ok_inv args env r h
  subst hr
  simp only [mk_report]
  refine ⟨⟨?_, ?_⟩, ⟨?_, ?_⟩, ?_⟩
  · intro p
    rw [List.mem_dedup, List.mem_append]
  · exact List.nodup_dedup _
  · rw [map_fst_records]
    exact List.sorted_insertionSort _ _
  · rw [map_fst_records]
    exact List.perm_insertionSort _ _
  · intro p s hmem
    rw [List.mem_map] at hmem
    obtain ⟨q, hq, heq⟩ := hmem
    injection heq with h1 h2
    subst h1
    subst h2
    constructor
    · intro hhard
      obtain ⟨hne, entry, m, hw1, hpath, hmeta, hdir, hino, hdev⟩ :=
        mem_hardlink_stage args env tm q hhard
      have hstat := consistent_stat env hcons entry m (Or.inl hw1) hmeta
      rw [hpath] at hstat
      simp [classify, hstat, hino]
    · intro hnh hrefl2
      rcases hrefl with rfl | ⟨hprs, rfl⟩
      · cases hrefl2
      · rw [mem_find_reflinked] at hrefl2
        obtain ⟨oe, hoe, hkeep⟩ := hrefl2
        obtain ⟨entry, m, xs, rfl, hpath, hmeta, hdir, hino, hlen, hgx,
          hcmp⟩ := (process_candidate_keep_iff _ _ _ _ _ _).mp hkeep
        have hstat := consistent_stat env hcons entry m (Or.inr hoe) hmeta
        rw [hpath] at hstat
        simp [classify, hstat, hino, hprs]

/-- A static run with one hardlink match (path 3) and one reflink match
(path 4), whose fresh metadata agrees with the walk. -/
def env_c9 : Env :=
  { target_meta := .ok ⟨7, 1, 2, 5, false⟩
    statfs_btrfs := .ok true
    fiemap := fun _ => .ok [⟨100, 5, 0⟩]
    walk1 := [some ⟨3, some ⟨7, 1, 2, 5, false⟩⟩]
    walk2 := [some ⟨4, some ⟨8, 1, 1, 5, false⟩⟩]
    stat := fun p =>
      if p = 3 then .ok ⟨7, 1, 2, 5, false⟩
      else if p = 4 then .ok ⟨8, 1, 1, 5, false⟩
      else .err ⟨ErrKind.otherKind, none⟩ }

/-- Arguments for the `env_c9` run. -/
def args_c9 : ArgsM := ⟨0, 9, false, false, false⟩

/-- The report of the `env_c9` run. -/
def rep9 : Report := mk_report args_c9 env_c9 ⟨7, 1, 2, 5, false⟩ true true
  false
  (find_reflinked_files_by_extents env_c9.fiemap env_c9.walk2
    [⟨100, 5, 0⟩] 7 5)
  [⟨100, 5, 0⟩]

/-- Concrete instantiation of `c9_report_spec` at the `env_c9` run. -/
theorem c9_report_spec_witness :
    rep9.total.Nodup ∧ (rep9.records.map Prod.fst).Sorted (· ≤ ·) := by
  have h := c9_report_spec args_c9 env_c9 rep9 rfl (by decide)
  exact ⟨h.1.2, h.2.1.1⟩

/-! ### C10 -/

/-- C10: for a size-0 target on the copy-on-write filesystem with the
reflink search enabled and an empty extracted extent sequence, the reflink
search still runs with the empty target sequence, and every walked
candidate that is a non-directory of size 0 with a different inode and an
empty (after inline filtering) extent sequence lands in the reflink match
set and in the final result set — two empty sequences compare as fully
shared. -/
theorem c10_empty_target :
    ∀ (args : ArgsM) (env : Env) (tm : Metadata) (r : Report),
      env.target_meta = .ok tm → tm.len = 0 →
      env.statfs_btrfs = .ok true → args.disable_reflink = false →
      get_extents env.fiemap args.target = .ok [] →
      main_model args env = .ok r →
      r.reflink_ran = true ∧ r.target_extents = [] ∧
      ∀ (entry : WalkEntry) (m : Metadata),
        some entry ∈ env.walk2 → entry.metadata = some m →
        m.is_dir = false → m.ino ≠ tm.ino → m.len = 0 →
        get_extents env.fiemap entry.path = .ok [] →
        (entry.path ∈ r.refl ∧ entry.path ∈ r.total) := by
  intro args env tm r ht hlen hb hdis hg h
  have hprs : (true && !args.disable_reflink) = true := by simp [hdis]
  have hnsk : ¬(List.isEmpty ([] : List FiemapExtent) = true ∧ 0 < tm.len) := by
    simp [hlen]
  simp only [main_model, ht, hb, hg] at h
  rw [if_pos hprs, if_neg hnsk] at h
  cases h
  refine ⟨by simp [mk_report], by simp [mk_report], ?_⟩
  intro entry m hw hm hdir hino hlen0 hge
  have hkeep : (process_candidate env.fiemap [] tm.ino tm.len
      (some entry)).1 = some entry.path :=
    (process_candidate_keep_iff _ _ _ _ _ _).mpr
      ⟨entry, m, [], rfl, rfl, hm, hdir, hino, by rw [hlen0, hlen], hge,
        by decide⟩
  have hmem : entry.path ∈ find_reflinked_files_by_extents env.fiemap
      env.walk2 [] tm.ino tm.len :=
    (mem_find_reflinked _ _ _ _ _ _).mpr ⟨some entry, hw, hkeep⟩
  constructor
  · simpa [mk_report] using hmem
  · simp only [mk_report, List.mem_dedup, List.mem_append]
    exact Or.inr hmem

/-- A size-0 target run with one size-0 candidate (path 1, inode 5). -/
def env_c10 : Env :=
  { target_meta := .ok ⟨7, 1, 1, 0, false⟩
    statfs_btrfs := .ok true
    fiemap := fun _ => .ok []
    walk1 := []
    walk2 := [some ⟨1, some ⟨5, 1, 1, 0, false⟩⟩]
    stat := fun _ => .err ⟨ErrKind.otherKind, none⟩ }

/-- Arguments for the `env_c10` run. -/
def args_c10 : ArgsM := ⟨0, 9, false, false, false⟩

/-- The report of the `env_c10` run. -/
def rep10 : Report := mk_report args_c10 env_c10 ⟨7, 1, 1, 0, false⟩ true
  true false
  (find_reflinked_files_by_extents env_c10.fiemap env_c10.walk2 [] 7 0) []

/-- Concrete instantiation of `c10_empty_target` at the `env_c10` run. -/
theorem c10_empty_target_witness :
    1 ∈ rep10.refl ∧ 1 ∈ rep10.total := by
  have h := c10_empty_target args_c10 env_c10 ⟨7, 1, 1, 0, false⟩ rep10
    rfl rfl rfl rfl rfl rfl
  exact h.2.2 ⟨1, some ⟨5, 1, 1, 0, false⟩⟩ ⟨5, 1, 1, 0, false⟩
    (by decide) rfl rfl (by decide) rfl rfl
